import Mathlib

/-!
Verification of the Wavematic signal-composition library
(`src/wavematic/wave.py`) against its natural-language specification.

The Python code is shallowly embedded: machine floats are modelled by
exact rationals (`ℚ`), `pd.Series` by an index list, a value list and an
optional name, `pd.DataFrame` by an index list plus named columns of
optional values (missing entries — pandas `NaN` from outer joins — are
`Option.none`), and Python exceptions by `Except`.  The external
libraries consumed at the boundary (`np.sin`, `scipy.signal.square`,
`scipy.signal.sawtooth`, `noise.pnoise1`, and the constant `np.pi`) are
passed in as an explicit bundle of opaque-to-us but mathematically
arbitrary rational functions, mirroring the spec's "external interfaces"
section: every theorem below holds for any instantiation of that bundle.
-/

namespace WavematicSpec

/-- Python `int(q)` on a rational: truncation toward zero
(`int(2.7) = 2`, `int(-2.7) = -2`), i.e. the truncating division of the
numerator by the denominator. -/
def pyInt (q : ℚ) : ℤ :=
  q.num.tdiv (q.den : ℤ)

/-- `np.linspace(start, stop, num)` with `endpoint=True` (the default used
by the source), in exact arithmetic: `num` evenly spaced points from
`start` to `stop`, both endpoints included when `num ≥ 2`; `num = 1`
yields `[start]`; `num = 0` yields the empty list. -/
def linspace : ℚ → ℚ → ℕ → List ℚ
  | _, _, 0 => []
  | s, _, 1 => [s]
  | s, e, (n + 2) =>
      (List.range (n + 2)).map (fun i : ℕ => s + (i : ℚ) * (e - s) / ((n : ℚ) + 1))

/-- `TimeAxis` state: `duration`, `rate`, `start` (source lines 37–39). -/
structure TimeAxis where
  duration : ℚ
  rate : ℚ
  start : ℚ
deriving DecidableEq, Repr

/-- `TimeAxis.__init__` validation (source lines 31–35): `ValueError` when
`duration < 0`, then `ValueError` when `rate < 0`; `start` is stored
unchecked.  (The dynamic-typing behaviour on non-numeric arguments is
modelled separately below with `PyVal`.) -/
def TimeAxis.init (duration rate start : ℚ) : Except String TimeAxis :=
  if duration < 0 then .error "`duration` must be non-negative."
  else if rate < 0 then .error "`rate` must be non-negative."
  else .ok ⟨duration, rate, start⟩

/-- `TimeAxis.get` (source lines 41–52):
`pd.Series(np.linspace(start, start + duration, int(rate * duration)))`.
`int()` truncates toward zero (`pyInt`); the count is non-negative for
every validly constructed axis, which is the only case the claims
evaluate. -/
def TimeAxis.get (ta : TimeAxis) : List ℚ :=
  linspace ta.start (ta.start + ta.duration) (pyInt (ta.rate * ta.duration)).toNat

/-! ### Dynamic-typing model of `TimeAxis` for the error-handling claim

Python values reaching `TimeAxis.__init__` are either numbers or
non-numeric objects; comparing or adding a non-numeric object with a
number raises `TypeError` (the relevant case for the spec's
"type-mismatch" taxonomy). -/

/-- A Python value passed to `TimeAxis`: a number, or a non-numeric
object (tagged by a string for concreteness). -/
inductive PyVal where
  | num (q : ℚ)
  | nonNum (tag : String)
deriving DecidableEq, Repr

/-- Python exception classes raised by the modelled code paths. -/
inductive PyErr where
  | missingTimeAxis
  | incompatibleTimeAxisRates
  | typeError
  | valueError
deriving DecidableEq, Repr

instance {ε α : Type} [DecidableEq ε] [DecidableEq α] :
    DecidableEq (Except ε α) := fun x y =>
  match x, y with
  | .error a, .error b =>
    if h : a = b then isTrue (by rw [h])
    else isFalse (fun he => by cases he; exact h rfl)
  | .ok a, .ok b =>
    if h : a = b then isTrue (by rw [h])
    else isFalse (fun he => by cases he; exact h rfl)
  | .error _, .ok _ => isFalse (fun he => Except.noConfusion he)
  | .ok _, .error _ => isFalse (fun he => Except.noConfusion he)

/-- Python `a < b` between a dynamic value and a number: numeric
comparison, or `TypeError` for a non-numeric operand. -/
def pyLt (a b : PyVal) : Except PyErr Bool :=
  match a, b with
  | .num x, .num y => .ok (x < y)
  | _, _ => .error .typeError

/-- Python `a + b` on dynamic values: numeric addition, or `TypeError`
when either operand is non-numeric. -/
def pyAdd (a b : PyVal) : Except PyErr PyVal :=
  match a, b with
  | .num x, .num y => .ok (.num (x + y))
  | _, _ => .error .typeError

/-- Python `int(a * b)` on dynamic values: `TypeError` when either
operand is non-numeric. -/
def pyMulInt (a b : PyVal) : Except PyErr ℤ :=
  match a, b with
  | .num x, .num y => .ok (pyInt (x * y))
  | _, _ => .error .typeError

/-- A `TimeAxis` whose fields hold dynamic Python values. -/
structure TimeAxisV where
  duration : PyVal
  rate : PyVal
  start : PyVal
deriving DecidableEq, Repr

/-- `TimeAxis.__init__` over dynamic values (source lines 31–39): evaluate
`duration < 0` (raising `TypeError` on a non-numeric `duration`), raise
`ValueError` if true; then likewise for `rate`; store `start`
unchecked. -/
def TimeAxisV.initV (duration rate start : PyVal) : Except PyErr TimeAxisV := do
  let dneg ← pyLt duration (.num 0)
  if dneg then .error .valueError
  else do
    let rneg ← pyLt rate (.num 0)
    if rneg then .error .valueError
    else .ok ⟨duration, rate, start⟩

/-- `TimeAxis.get` over dynamic values (source lines 41–52): `stop =
start + duration` is evaluated first (raising `TypeError` on a
non-numeric `start`), then `int(rate * duration)`, then the linspace. -/
def TimeAxisV.getV (ta : TimeAxisV) : Except PyErr (List ℚ) := do
  let stop ← pyAdd ta.start ta.duration
  let n ← pyMulInt ta.rate ta.duration
  match ta.start, stop with
  | .num s, .num e => .ok (linspace s e n.toNat)
  | _, _ => .error .typeError

/-! ### Basic facts about `linspace` and `pyInt` -/

theorem linspace_length (s e : ℚ) (n : ℕ) : (linspace s e n).length = n := by
  match n with
  | 0 => rfl
  | 1 => rfl
  | (m + 2) =>
    rw [linspace, List.length_map, List.length_range]

theorem pyInt_of_nonneg {q : ℚ} (h : 0 ≤ q) : pyInt q = Int.floor q := by
  rw [pyInt, Rat.floor_def,
    Int.tdiv_eq_ediv (Rat.num_nonneg.mpr h) (by positivity)]

/-- C4: for non-negative `rate` and `duration` and any `start`,
`TimeAxis(duration, rate, start).get()` has length `⌊rate * duration⌋`. -/
theorem timeaxis_get_length (duration rate start : ℚ)
    (hd : 0 ≤ duration) (hr : 0 ≤ rate) :
    ((TimeAxis.mk duration rate start).get.length : ℤ) =
      Int.floor (rate * duration) := by
  have hnn : 0 ≤ rate * duration := mul_nonneg hr hd
  have hfl : (0 : ℤ) ≤ Int.floor (rate * duration) :=
    Int.floor_nonneg.mpr hnn
  simp [TimeAxis.get, linspace_length, pyInt_of_nonneg hnn,
    Int.toNat_of_nonneg hfl]

/-- C4 witness: `duration = 2`, `rate = 10`, `start = 0` gives 20 samples. -/
theorem timeaxis_get_length_witness :
    ((TimeAxis.mk 2 10 0).get.length : ℤ) = Int.floor ((10 : ℚ) * 2) :=
  timeaxis_get_length 2 10 0 (by norm_num) (by norm_num)

theorem linspace_getElem (s e : ℚ) (m i : ℕ)
    (h : i < (linspace s e (m + 2)).length) :
    (linspace s e (m + 2))[i] = s + (i : ℚ) * (e - s) / ((m : ℚ) + 1) := by
  simp [linspace, List.getElem_map, List.getElem_range]

/-- C5: a validly constructed `TimeAxis` yields `count = ⌊rate·duration⌋`
evenly spaced samples; for `count ≥ 2` the first sample is `start` and
the last is `start + duration`, for `count = 1` the sequence is
`[start]`, and for `count = 0` it is empty. -/
theorem timeaxis_get_samples (duration rate start : ℚ) (ta : TimeAxis)
    (hinit : TimeAxis.init duration rate start = Except.ok ta) :
    ta.get.length = (Int.floor (rate * duration)).toNat ∧
    ((Int.floor (rate * duration)).toNat = 0 → ta.get = []) ∧
    ((Int.floor (rate * duration)).toNat = 1 → ta.get = [start]) ∧
    (2 ≤ (Int.floor (rate * duration)).toNat →
      ta.get.head? = some start ∧
      ta.get.getLast? = some (start + duration)) ∧
    (∀ i (h1 : i < ta.get.length) (h2 : i + 1 < ta.get.length),
      ta.get.get ⟨i + 1, h2⟩ - ta.get.get ⟨i, h1⟩ =
        duration / (((Int.floor (rate * duration)).toNat : ℚ) - 1)) := by
  unfold TimeAxis.init at hinit
  by_cases h1 : duration < 0
  · simp [h1] at hinit
  by_cases h2 : rate < 0
  · simp [h1, h2] at hinit
  simp only [h1, h2, if_false] at hinit
  rw [Except.ok.injEq] at hinit
  subst hinit
  have hnn : 0 ≤ rate * duration := mul_nonneg (not_lt.mp h2) (not_lt.mp h1)
  have hget : (TimeAxis.mk duration rate start).get =
      linspace start (start + duration) (Int.floor (rate * duration)).toNat := by
    simp [TimeAxis.get, pyInt_of_nonneg hnn]
  rcases hn : (Int.floor (rate * duration)).toNat with - | k
  · rw [hn] at hget
    refine ⟨by simp [hget, linspace, hn], fun _ => by simp [hget, linspace],
      fun h => by omega, fun h => by omega, fun i hi1 hi2 => ?_⟩
    exfalso; rw [hget, linspace_length] at hi2; omega
  · rcases k with - | m
    · rw [hn] at hget
      refine ⟨by simp [hget, linspace, hn], fun h => by omega,
        fun _ => by simp [hget, linspace], fun h => by omega,
        fun i hi1 hi2 => ?_⟩
      exfalso; rw [hget, linspace_length] at hi2; omega
    · rw [hn] at hget
      refine ⟨by rw [hget, linspace_length], fun h => by omega,
        fun h => by omega, fun _ => ⟨?_, ?_⟩, fun i hi1 hi2 => ?_⟩
      · rw [hget, List.head?_eq_getElem?,
          List.getElem?_eq_getElem (by rw [linspace_length]; omega),
          linspace_getElem]
        simp
      · rw [hget, List.getLast?_eq_getElem?, linspace_length,
          List.getElem?_eq_getElem (by rw [linspace_length]; omega),
          linspace_getElem]
        have hstep : (m + 1 + 1 - 1 : ℕ) = m + 1 := rfl
        rw [hstep]
        have hm1 : ((m : ℚ) + 1) ≠ 0 := by positivity
        congr 1
        push_cast
        field_simp
      · rw [hget, linspace_length] at hi1 hi2
        simp only [List.get_eq_getElem, hget]
        rw [linspace_getElem _ _ _ _ (by rw [linspace_length]; omega),
          linspace_getElem _ _ _ _ (by rw [linspace_length]; omega)]
        have hm1 : ((m : ℚ) + 1) ≠ 0 := by positivity
        have hc : ((↑(m + 1 + 1) : ℚ) - 1) = (m : ℚ) + 1 := by push_cast; ring
        rw [hc]
        field_simp
        ring

/-- C5 witness: `TimeAxis(duration=2, rate=10, start=0)` yields 20
samples, first `0`, last `2`, consecutive spacing `2/19`. -/
theorem timeaxis_get_samples_witness :
    (TimeAxis.mk 2 10 0).get.length = (Int.floor ((10 : ℚ) * 2)).toNat ∧
    (2 ≤ (Int.floor ((10 : ℚ) * 2)).toNat →
      (TimeAxis.mk 2 10 0).get.head? = some 0 ∧
      (TimeAxis.mk 2 10 0).get.getLast? = some (0 + 2)) := by
  have h := timeaxis_get_samples 2 10 0 (TimeAxis.mk 2 10 0) (by rfl)
  exact ⟨h.1, h.2.2.2.1⟩

/-- C8: `TimeAxis` construction raises `ValueError` exactly when
`duration < 0` or `rate < 0` (numeric inputs); a non-numeric `duration`
or `rate` raises `TypeError` during the construction-time inequality
checks; a non-numeric `start` passes construction and raises `TypeError`
only when `get()` is evaluated. -/
theorem timeaxis_construction_errors :
    (∀ d r s : ℚ, TimeAxisV.initV (.num d) (.num r) (.num s) =
        (if d < 0 ∨ r < 0 then .error .valueError
         else .ok ⟨.num d, .num r, .num s⟩)) ∧
    (∀ tag r s, TimeAxisV.initV (.nonNum tag) r s = .error .typeError) ∧
    (∀ d : ℚ, 0 ≤ d → ∀ tag s,
      TimeAxisV.initV (.num d) (.nonNum tag) s = .error .typeError) ∧
    (∀ d r : ℚ, 0 ≤ d → 0 ≤ r → ∀ tag,
      TimeAxisV.initV (.num d) (.num r) (.nonNum tag) =
        .ok ⟨.num d, .num r, .nonNum tag⟩ ∧
      TimeAxisV.getV ⟨.num d, .num r, .nonNum tag⟩ = .error .typeError) := by
  refine ⟨fun d r s => ?_, fun tag r s => ?_, fun d hd tag s => ?_,
    fun d r hd hr tag => ⟨?_, ?_⟩⟩
  · by_cases h1 : d < 0 <;> by_cases h2 : r < 0 <;>
      simp [TimeAxisV.initV, pyLt, h1, h2, Bind.bind, Except.bind]
  · simp [TimeAxisV.initV, pyLt, Bind.bind, Except.bind]
  · simp [TimeAxisV.initV, pyLt, not_lt.mpr hd, Bind.bind, Except.bind]
  · simp [TimeAxisV.initV, pyLt, not_lt.mpr hd, not_lt.mpr hr,
      Bind.bind, Except.bind]
  · simp [TimeAxisV.getV, pyAdd, Bind.bind, Except.bind]

/-- C8 witness: `TimeAxis(-1, 1, 1)` raises `ValueError`;
`TimeAxis("bad", 1, 1)` raises `TypeError`; `TimeAxis(1, "bad", 1)`
raises `TypeError`; `TimeAxis(1, 1, "bad")` constructs, and its `get()`
raises `TypeError`. -/
theorem timeaxis_construction_errors_witness :
    TimeAxisV.initV (.num (-1)) (.num 1) (.num 1) = .error .valueError ∧
    TimeAxisV.initV (.nonNum "bad") (.num 1) (.num 1) = .error .typeError ∧
    TimeAxisV.initV (.num 1) (.nonNum "bad") (.num 1) = .error .typeError ∧
    TimeAxisV.initV (.num 1) (.num 1) (.nonNum "bad") =
      .ok ⟨.num 1, .num 1, .nonNum "bad"⟩ ∧
    TimeAxisV.getV ⟨.num 1, .num 1, .nonNum "bad"⟩ = .error .typeError := by
  have h := timeaxis_construction_errors
  have h4 := h.2.2.2 1 1 (by norm_num) (by norm_num) "bad"
  refine ⟨?_, h.2.1 "bad" (.num 1) (.num 1),
    h.2.2.1 1 (by norm_num) "bad" (.num 1), h4.1, h4.2⟩
  rw [h.1 (-1) 1 1]
  norm_num

/-! ### Signals

`Wave` and `Noise` delegate the actual waveform mathematics to external
libraries (`np.sin`, `scipy.signal.square`, `scipy.signal.sawtooth`,
`noise.pnoise1`, constant `np.pi`).  That boundary is modelled by an
explicit bundle of arbitrary rational-valued functions: the claims hold
for every instantiation of the bundle. -/

/-- External function bundle. `sinF`, `squareF` and `sawtoothF` take the
keyword-argument mapping that the source forwards opaquely
(`**kwargs`: `duty` for square, `width` for sawtooth) and the phase
argument; `pnoise1` takes the sample value, `octaves`, `persistence`,
`lacunarity`, `repeat` and `base` (the seed), in source order. -/
structure Ext where
  pi : ℚ
  sinF : List (String × ℚ) → ℚ → ℚ
  squareF : List (String × ℚ) → ℚ → ℚ
  sawtoothF : List (String × ℚ) → ℚ → ℚ
  pnoise1 : ℚ → ℕ → ℚ → ℚ → ℕ → ℤ → ℚ

/-- The `kind` literal of a `Wave` (source line 192). -/
inductive WaveKind where
  | sine
  | square
  | sawtooth
deriving DecidableEq, Repr

/-- The `funcs` dispatch table of `Wave.get` (source lines 234–238). -/
def Ext.waveFunc (ext : Ext) : WaveKind → List (String × ℚ) → ℚ → ℚ
  | .sine => ext.sinF
  | .square => ext.squareF
  | .sawtooth => ext.sawtoothF

/-- A pandas column label as used by the source: a string, or the
positional integer assigned by `Wavematic.all_signals` as fallback. -/
inductive SName where
  | str (s : String)
  | num (n : ℕ)
deriving DecidableEq, Repr

/-- A `pd.Series`: positional index of timestamps, values of the same
length, and an optional name label. -/
structure Series where
  index : List ℚ
  values : List ℚ
  name : Option SName
deriving DecidableEq, Repr

/-- `Wave` state (source lines 185–203), defaults included. -/
structure Wave where
  ta : Option TimeAxis := none
  freq : ℚ := 0
  amp : ℚ := 0
  phase : ℚ := 0
  disp : ℚ := 0
  kind : WaveKind := .sine
  name : Option String := none
  kwargs : List (String × ℚ) := []
deriving DecidableEq, Repr

/-- `Noise` state (source lines 103–113), defaults included. -/
structure Noise where
  ta : Option TimeAxis := none
  amp : ℚ := 0
  seed : ℤ := 0
  name : String := "Noise"
deriving DecidableEq, Repr

/-- `Noise` class constant `octaves = 20` (source line 98). -/
def Noise.octaves : ℕ := 20

/-- `Noise` class constant `persistence = 5.0` (source line 99). -/
def Noise.persistence : ℚ := 5

/-- `Noise` class constant `lacunarity = 2.0` (source line 100). -/
def Noise.lacunarity : ℚ := 2

/-- `Noise` class constant `repeat = 1024` (source line 101; `repeat` is
a Lean keyword, hence the trailing letter). -/
def Noise.repeatP : ℕ := 1024

/-- Axis resolution shared by `Wave.get` and `Noise.get`
(source lines 126–132 and 216–222): the argument if provided, else the
instance's stored axis, else `MissingTimeAxis`. -/
def resolveTa (arg inst : Option TimeAxis) : Except PyErr TimeAxis :=
  match arg with
  | some a => .ok a
  | none =>
    match inst with
    | some a => .ok a
    | none => .error .missingTimeAxis

/-- `Noise.get` (source lines 115–147): resolve the axis, then map
`pnoise1(v, octaves, persistence, lacunarity, repeat, base=seed) * amp`
over the axis samples; the output is indexed by the axis samples and
named with the instance's `name`. -/
def Noise.get (ext : Ext) (nz : Noise) (ta : Option TimeAxis) :
    Except PyErr Series :=
  match resolveTa ta nz.ta with
  | .error e => .error e
  | .ok axis =>
    let ta_ser := axis.get
    .ok { index := ta_ser,
          values := ta_ser.map (fun v =>
            ext.pnoise1 v Noise.octaves Noise.persistence Noise.lacunarity
              Noise.repeatP nz.seed * nz.amp),
          name := some (SName.str nz.name) }

/-- `Wave.get` (source lines 205–247): resolve the axis, compute
`base = 2π·freq·t + π·phase` over the axis samples, apply the function
selected by `kind` with the forwarded keyword arguments, scale by `amp`,
add `disp`; the output is indexed by the axis samples and named with
`name` when set. -/
def Wave.get (ext : Ext) (w : Wave) (ta : Option TimeAxis) :
    Except PyErr Series :=
  match resolveTa ta w.ta with
  | .error e => .error e
  | .ok axis =>
    let ta_ser := axis.get
    let base := ta_ser.map (fun t => 2 * ext.pi * w.freq * t + ext.pi * w.phase)
    .ok { index := ta_ser,
          values := base.map (fun b =>
            ext.waveFunc w.kind w.kwargs b * w.amp + w.disp),
          name := w.name.map SName.str }

/-- C6: `Wave.get`/`Noise.get` use the axis argument when provided (the
stored axis is then irrelevant), fall back to the stored axis otherwise,
and raise `MissingTimeAxis` exactly when both are absent. -/
theorem signal_axis_resolution (ext : Ext) (w : Wave) (nz : Noise) :
    (∀ arg, Wave.get ext w arg = Except.error PyErr.missingTimeAxis ↔
      (arg = none ∧ w.ta = none)) ∧
    (∀ a ta2, Wave.get ext { w with ta := ta2 } (some a) =
      Wave.get ext w (some a)) ∧
    (∀ a, w.ta = some a → Wave.get ext w none = Wave.get ext w (some a)) ∧
    (∀ arg, Noise.get ext nz arg = Except.error PyErr.missingTimeAxis ↔
      (arg = none ∧ nz.ta = none)) ∧
    (∀ a ta2, Noise.get ext { nz with ta := ta2 } (some a) =
      Noise.get ext nz (some a)) ∧
    (∀ a, nz.ta = some a → Noise.get ext nz none = Noise.get ext nz (some a)) := by
  refine ⟨fun arg => ?_, fun a ta2 => rfl, fun a h => ?_, fun arg => ?_,
    fun a ta2 => rfl, fun a h => ?_⟩
  · cases arg <;> cases hta : w.ta <;> simp [Wave.get, resolveTa, hta]
  · simp [Wave.get, resolveTa, h]
  · cases arg <;> cases hta : nz.ta <;> simp [Noise.get, resolveTa, hta]
  · simp [Noise.get, resolveTa, h]

/-- C7: for a wave with a provided axis, the output is indexed by the
axis samples in order, and the value at sample `t` is
`f(2π·freq·t + π·phase, kwargs) · amp + disp`, where `f` is the sine
function for kind `sine`, the square-wave function for kind `square`,
and the sawtooth function for kind `sawtooth`. -/
theorem wave_get_formula (ext : Ext) (w : Wave) (axis : TimeAxis) :
    Wave.get ext w (some axis) =
      Except.ok
        { index := axis.get
          values := axis.get.map (fun t =>
            ext.waveFunc w.kind w.kwargs
              (2 * ext.pi * w.freq * t + ext.pi * w.phase) * w.amp + w.disp)
          name := w.name.map SName.str } ∧
    ext.waveFunc WaveKind.sine = ext.sinF ∧
    ext.waveFunc WaveKind.square = ext.squareF ∧
    ext.waveFunc WaveKind.sawtooth = ext.sawtoothF := by
  refine ⟨?_, rfl, rfl, rfl⟩
  simp [Wave.get, resolveTa, List.map_map, Function.comp]

/-! ### The Wavematic compositor

Python object aliasing matters for the `Wavematic` claims: `copy.copy`
produces a new object whose `signals` attribute references the *same*
list.  The mutable signal list is therefore held in an explicit store
(`Store`), and a `Wavematic` holds a reference (`sigRef`) into it;
`copy` duplicates the structure, including the reference.  Stateful
methods take and return the store; a raise leaves the store as it was at
the raise point. -/

/-- A `Signal` is a `Wave` or a `Noise` (the two `Signal` subclasses of
the source). -/
inductive Signal where
  | wave (w : Wave)
  | noise (nz : Noise)
deriving DecidableEq, Repr

/-- The `ta` attribute of a signal. -/
def Signal.ta : Signal → Option TimeAxis
  | .wave w => w.ta
  | .noise nz => nz.ta

/-- Dynamic dispatch of `sig.get(ta)`. -/
def Signal.get (ext : Ext) : Signal → Option TimeAxis → Except PyErr Series
  | .wave w, arg => Wave.get ext w arg
  | .noise nz, arg => Noise.get ext nz arg

/-- The heap of mutable signal lists; a `Wavematic` points into it. -/
abbrev Store := List (List Signal)

/-- Read the signal list at reference `i`. -/
def storeGet (store : Store) (i : ℕ) : List Signal := store.getD i []

/-- Write the signal list at reference `i`. -/
def storeSet (store : Store) (i : ℕ) (v : List Signal) : Store := store.set i v

/-- `Wavematic` state (source lines 278–285): class attributes
`ensure_compatible = True` and `force_self_ta = False`, fields `ta` and
`name`, and the reference to its (initially empty) signal list. -/
structure Wavematic where
  ta : Option TimeAxis := none
  name : Option String := none
  sigRef : ℕ
  ensure_compatible : Bool := true
  force_self_ta : Bool := false
deriving DecidableEq, Repr

/-- `self.signals`: the list the Wavematic's reference points to. -/
def Wavematic.signals (store : Store) (w : Wavematic) : List Signal :=
  storeGet store w.sigRef

/-- The rate collection built by `Wavematic.check_compatible` (source
lines 324–326): the rates of every already-added signal's own axis, plus
the Wavematic's own axis's rate when set. -/
def Wavematic.collectedRates (store : Store) (w : Wavematic) : List ℚ :=
  ((Wavematic.signals store w).filterMap Signal.ta).map TimeAxis.rate
    ++ (w.ta.map TimeAxis.rate).toList

/-- `Wavematic.check_compatible` (source lines 310–329): a signal with no
own axis is always compatible; otherwise compatible iff every collected
rate equals the signal's axis rate (`rates.count(rate) == len(rates)`). -/
def Wavematic.check_compatible (store : Store) (w : Wavematic)
    (sig : Signal) : Bool :=
  match sig.ta with
  | none => true
  | some a =>
    let rates := Wavematic.collectedRates store w
    decide (rates.count a.rate = rates.length)

/-- `Wavematic.add_signal` (source lines 291–308): raise
`IncompatibleTimeAxisRates` when `ensure_compatible` holds and the check
fails (the store is untouched at the raise point); otherwise append to
the referenced signal list and return `self`. -/
def Wavematic.add_signal (store : Store) (w : Wavematic) (sig : Signal) :
    Store × Except PyErr Wavematic :=
  if w.ensure_compatible && !(Wavematic.check_compatible store w sig)
  then (store, .error .incompatibleTimeAxisRates)
  else (storeSet store w.sigRef (Wavematic.signals store w ++ [sig]), .ok w)

/-- `Wavematic.copy` (source lines 287–289): `copy.copy(self)` — a new
object with the same attribute values, the signal-list reference
included (the list itself is shared, not duplicated). -/
def Wavematic.copy (w : Wavematic) : Wavematic := w

/-- `Wavematic.__add__` (source lines 336–340): copy, then add the
signal to the copy via `+=`/`add_signal`. -/
def Wavematic.addOp (store : Store) (w : Wavematic) (sig : Signal) :
    Store × Except PyErr Wavematic :=
  Wavematic.add_signal store (Wavematic.copy w) sig

/-- C1: with `ensure_compatible` on and a signal that has its own axis,
`add_signal` raises `IncompatibleTimeAxisRates` exactly when the
collected rate list is non-empty and contains a rate unequal to the
signal's axis rate, leaving the store unchanged; otherwise it appends
the signal to the referenced list and returns the same Wavematic. -/
theorem add_signal_rate_check (store : Store) (w : Wavematic) (sig : Signal)
    (a : TimeAxis) (hec : w.ensure_compatible = true)
    (hta : sig.ta = some a) :
    ((Wavematic.add_signal store w sig =
        (store, Except.error PyErr.incompatibleTimeAxisRates)) ↔
      (Wavematic.collectedRates store w ≠ [] ∧
        ∃ r ∈ Wavematic.collectedRates store w, r ≠ a.rate)) ∧
    ((∀ r ∈ Wavematic.collectedRates store w, r = a.rate) →
      Wavematic.add_signal store w sig =
        (storeSet store w.sigRef (Wavematic.signals store w ++ [sig]),
         Except.ok w)) := by
  have hcc : Wavematic.check_compatible store w sig =
      decide ((Wavematic.collectedRates store w).count a.rate =
        (Wavematic.collectedRates store w).length) := by
    unfold Wavematic.check_compatible
    rw [hta]
  by_cases hP : ((Wavematic.collectedRates store w).count a.rate =
      (Wavematic.collectedRates store w).length)
  · have hall : ∀ b ∈ Wavematic.collectedRates store w, a.rate = b :=
      List.count_eq_length.mp hP
    have hadd : Wavematic.add_signal store w sig =
        (storeSet store w.sigRef (Wavematic.signals store w ++ [sig]),
         Except.ok w) := by
      unfold Wavematic.add_signal
      rw [hcc, decide_eq_true hP]
      simp
    rw [hadd]
    constructor
    · constructor
      · intro h
        exact absurd (congrArg Prod.snd h) (by simp)
      · rintro ⟨-, r, hr, hne⟩
        exact absurd (hall r hr).symm hne
    · intro _
      rfl
  · have hex : ∃ b ∈ Wavematic.collectedRates store w, b ≠ a.rate := by
      have hno := (not_iff_not.mpr List.count_eq_length).mp hP
      push_neg at hno
      obtain ⟨b, hb, hne⟩ := hno
      exact ⟨b, hb, fun h => hne h.symm⟩
    have hne_nil : Wavematic.collectedRates store w ≠ [] := by
      obtain ⟨b, hb, -⟩ := hex
      exact List.ne_nil_of_mem hb
    have hadd : Wavematic.add_signal store w sig =
        (store, Except.error PyErr.incompatibleTimeAxisRates) := by
      unfold Wavematic.add_signal
      rw [hcc, decide_eq_false hP, hec]
      simp
    rw [hadd]
    constructor
    · exact ⟨fun _ => ⟨hne_nil, hex⟩, fun _ => rfl⟩
    · intro hall
      obtain ⟨b, hb, hne⟩ := hex
      exact absurd (hall b hb) hne

/-- C10: with or without `ensure_compatible`, a signal with no own axis
is always accepted: `add_signal` appends it and returns the same
Wavematic, never raising `IncompatibleTimeAxisRates`. -/
theorem add_signal_no_axis (store : Store) (w : Wavematic) (sig : Signal)
    (hta : sig.ta = none) :
    Wavematic.add_signal store w sig =
      (storeSet store w.sigRef (Wavematic.signals store w ++ [sig]),
       Except.ok w) := by
  unfold Wavematic.add_signal Wavematic.check_compatible
  rw [hta]
  simp

/-! Concrete objects used by witnesses and counterexamples. -/

/-- A concrete instantiation of the external function bundle, used only
to evaluate witnesses and counterexamples. -/
def extT : Ext :=
  { pi := 3
    sinF := fun _ x => x
    squareF := fun _ x => x + 1
    sawtoothF := fun _ x => x - 1
    pnoise1 := fun v _ _ _ _ sd => v + (sd : ℚ) }

/-- A concrete axis: `duration = 1`, `rate = 2`, `start = 0`
(two samples, `[0, 1]`). -/
def taT : TimeAxis := ⟨1, 2, 0⟩

/-- A concrete axis with a different rate: `duration = 1`, `rate = 3`. -/
def taT3 : TimeAxis := ⟨1, 3, 0⟩

/-- A concrete signal with no own axis (a default `Noise`). -/
def sigT : Signal := Signal.noise {}

/-- A concrete signal whose own axis has rate 2. -/
def sigW : Signal := Signal.wave { ta := some taT }

/-- A one-slot store holding an empty signal list. -/
def storeT : Store := [[]]

/-- A concrete Wavematic with no own axis, pointing at slot 0. -/
def wmT : Wavematic := { sigRef := 0 }

/-- A concrete Wavematic whose own axis has rate 3, pointing at slot 0. -/
def wmT3 : Wavematic := { ta := some taT3, sigRef := 0 }

/-- C1 witness: adding a rate-2 signal to a Wavematic whose own axis has
rate 3 raises and leaves the store unchanged. -/
theorem add_signal_rate_check_witness :
    Wavematic.add_signal storeT wmT3 sigW =
      (storeT, Except.error PyErr.incompatibleTimeAxisRates) :=
  (add_signal_rate_check storeT wmT3 sigW taT rfl rfl).1.mpr
    ⟨by decide, ⟨3, by decide, by decide⟩⟩

/-- C10 witness: a default `Noise` (no axis) is accepted into a
Wavematic with an axis set. -/
theorem add_signal_no_axis_witness :
    Wavematic.add_signal storeT wmT3 sigT =
      (storeSet storeT wmT3.sigRef (Wavematic.signals storeT wmT3 ++ [sigT]),
       Except.ok wmT3) :=
  add_signal_no_axis storeT wmT3 sigT rfl

/-- C3 counterexample: `w + s` succeeds and returns the shallow copy,
but the original Wavematic's signal collection is NOT left unchanged:
the shallow copy shares the signal list, so the append through the copy
also appends to `w`'s collection. -/
theorem wavematic_add_mutates_original :
    (Wavematic.addOp storeT wmT sigT).2 = Except.ok (Wavematic.copy wmT) ∧
    Wavematic.signals (Wavematic.addOp storeT wmT sigT).1 wmT = [sigT] ∧
    Wavematic.signals (Wavematic.addOp storeT wmT sigT).1 wmT ≠
      Wavematic.signals storeT wmT := by
  refine ⟨rfl, rfl, ?_⟩
  decide

/-- C3 (amended): for a compatible signal, `w + s` returns a new
Wavematic that shares the signal-list reference with `w` and is
otherwise field-identical to `w` (its `ta` and `name` are untouched);
the shared list — hence also `w`'s collection — gains `s` at the end. -/
theorem wavematic_addop_shares_collection (store : Store) (w : Wavematic)
    (sig : Signal) (hcompat : Wavematic.check_compatible store w sig = true) :
    Wavematic.addOp store w sig =
      (storeSet store w.sigRef (Wavematic.signals store w ++ [sig]),
       Except.ok w) := by
  unfold Wavematic.addOp Wavematic.add_signal Wavematic.copy
  rw [hcompat]
  simp

/-- C3 (amended) witness. -/
theorem wavematic_addop_shares_collection_witness :
    Wavematic.addOp storeT wmT sigT =
      (storeSet storeT wmT.sigRef (Wavematic.signals storeT wmT ++ [sigT]),
       Except.ok wmT) :=
  wavematic_addop_shares_collection storeT wmT sigT (by decide)

/-- C6 witness: with neither an argument nor a stored axis, both `Wave`
and `Noise` raise `MissingTimeAxis`; with a stored axis, `get()` equals
`get(axis)`. -/
theorem signal_axis_resolution_witness :
    Wave.get extT {} none = Except.error PyErr.missingTimeAxis ∧
    Noise.get extT {} none = Except.error PyErr.missingTimeAxis ∧
    Wave.get extT { ta := some taT } none =
      Wave.get extT { ta := some taT } (some taT) := by
  have h := signal_axis_resolution extT {} {}
  have h2 := signal_axis_resolution extT { ta := some taT } {}
  exact ⟨(h.1 none).mpr ⟨rfl, rfl⟩, ((h.2.2.2.1) none).mpr ⟨rfl, rfl⟩,
    h2.2.2.1 taT rfl⟩

/-! ### `all_signals` and `get`: the outer-join-then-sum pipeline

`pd.DataFrame` is modelled as a shared index plus named columns of
optional values (`none` = `NaN` introduced by the outer join).
`DataFrame.join(s, how="outer")` on the duplicate-free indexes produced
by `TimeAxis.get` computes the sorted union of the indexes, reindexes
the existing columns, and appends the series as a new column; pandas
raises a `ValueError` when the series is unnamed or its name collides
with an existing column, which the model preserves. -/

/-- Sorted union of two sorted duplicate-free lists (the index union of
a pandas outer join). -/
def mergeUnion : List ℚ → List ℚ → List ℚ
  | [], ys => ys
  | x :: xs, [] => x :: xs
  | x :: xs, y :: ys =>
    if x < y then x :: mergeUnion xs (y :: ys)
    else if y < x then y :: mergeUnion (x :: xs) ys
    else x :: mergeUnion xs ys
termination_by xs ys => xs.length + ys.length

/-- Value lookup by index label: the value at the first position whose
index entry equals `t`, if any. -/
def idxLookup {α : Type} : List ℚ → List α → ℚ → Option α
  | [], _, _ => none
  | _ :: _, [], _ => none
  | i :: is, v :: vs, t => if t = i then some v else idxLookup is vs t

/-- A `pd.DataFrame`: an index and named columns (entries `none` where a
column has no value at an index position). -/
structure DataFrame where
  index : List ℚ
  cols : List (SName × List (Option ℚ))
deriving DecidableEq, Repr

/-- `pd.DataFrame()`: empty index, no columns. -/
def dfEmpty : DataFrame := ⟨[], []⟩

/-- `df.join(s, how="outer")`. -/
def dfJoin (df : DataFrame) (s : Series) : Except PyErr DataFrame :=
  match s.name with
  | none => .error .valueError
  | some nm =>
    if df.cols.any (fun c => c.1 == nm) then .error .valueError
    else
      let newIdx := mergeUnion df.index s.index
      .ok { index := newIdx
            cols := df.cols.map (fun c =>
                (c.1, newIdx.map (fun t => (idxLookup df.index c.2 t).bind id)))
              ++ [(nm, newIdx.map (fun t => idxLookup s.index s.values t))] }

/-- The effective `ta` keyword passed to `sig.get` by
`Wavematic.all_signals` (source lines 345–352): `self.ta` when
`force_self_ta` is set or the signal has no own axis, otherwise no
argument (modelled as `none`, which `get` treats identically). -/
def wmArgTa (w : Wavematic) (sig : Signal) : Option TimeAxis :=
  if w.force_self_ta || sig.ta.isNone then w.ta else none

/-- One loop iteration of `all_signals` up to the join: obtain the
signal's series and apply the fallback name `i` if it has none
(source lines 352–354). -/
def sigSeries (ext : Ext) (w : Wavematic) (i : ℕ) (sig : Signal) :
    Except PyErr Series :=
  match Signal.get ext sig (wmArgTa w sig) with
  | .error e => .error e
  | .ok s => .ok { s with name := some (s.name.getD (SName.num i)) }

/-- The `for i, sig in enumerate(self.signals)` loop of `all_signals`
(source lines 345–355), folding outer joins over the signals. -/
def allSignalsGo (ext : Ext) (w : Wavematic) :
    ℕ → DataFrame → List Signal → Except PyErr DataFrame
  | _, df, [] => .ok df
  | i, df, sig :: rest =>
    match sigSeries ext w i sig with
    | .error e => .error e
    | .ok s =>
      match dfJoin df s with
      | .error e => .error e
      | .ok df2 => allSignalsGo ext w (i + 1) df2 rest

/-- `Wavematic.all_signals` (source lines 342–356). -/
def Wavematic.all_signals (ext : Ext) (store : Store) (w : Wavematic) :
    Except PyErr DataFrame :=
  allSignalsGo ext w 0 dfEmpty (Wavematic.signals store w)

/-- One row of `df.sum(axis=1)`: the sum of the entries present in row
`i` (pandas skips `NaN`). -/
def dfRowSum (df : DataFrame) (i : ℕ) : ℚ :=
  (df.cols.filterMap (fun c => (c.2[i]?).bind id)).sum

/-- `Wavematic.get` (source lines 358–364): row-wise sum of the
`all_signals` table, named with `self.name` when set. -/
def Wavematic.get (ext : Ext) (store : Store) (w : Wavematic) :
    Except PyErr Series :=
  match Wavematic.all_signals ext store w with
  | .error e => .error e
  | .ok df =>
    .ok { index := df.index
          values := (List.range df.index.length).map (fun i => dfRowSum df i)
          name := w.name.map SName.str }

/-- The per-signal series that `all_signals` joins, in insertion order
(the loop of source lines 345–354 without the joins), used to state the
specification-side description of `get`. -/
def resolvedSeriesGo (ext : Ext) (w : Wavematic) :
    ℕ → List Signal → Except PyErr (List Series)
  | _, [] => .ok []
  | i, sig :: rest =>
    match sigSeries ext w i sig with
    | .error e => .error e
    | .ok s =>
      match resolvedSeriesGo ext w (i + 1) rest with
      | .error e => .error e
      | .ok ss => .ok (s :: ss)

/-- The per-signal series of a Wavematic's signal list. -/
def Wavematic.resolvedSeries (ext : Ext) (store : Store) (w : Wavematic) :
    Except PyErr (List Series) :=
  resolvedSeriesGo ext w 0 (Wavematic.signals store w)

/-- Insert into a sorted duplicate-free list, skipping duplicates. -/
def insertSorted (x : ℚ) : List ℚ → List ℚ
  | [] => [x]
  | y :: ys =>
    if x < y then x :: y :: ys
    else if x = y then y :: ys
    else y :: insertSorted x ys

/-- The sorted, deduplicated union of a family of timestamp lists. -/
def sortedUnion (ls : List (List ℚ)) : List ℚ :=
  ls.flatten.foldr insertSorted []

/-- Modelled from the spec's words (§4.4, for the C2 refinement
comparison): "build the sorted union of all per-signal timestamp keys,
then for each key sum only the signals that have a value at that key",
labelled with the compositor's name when set. -/
def specCombined (ss : List Series) (nm : Option SName) : Series :=
  { index := sortedUnion (ss.map Series.index)
    values := (sortedUnion (ss.map Series.index)).map (fun t =>
      (ss.filterMap (fun s => idxLookup s.index s.values t)).sum)
    name := nm }

/-! ### Properties of the join machinery -/

theorem mem_mergeUnion (t : ℚ) :
    ∀ (xs ys : List ℚ), t ∈ mergeUnion xs ys ↔ t ∈ xs ∨ t ∈ ys
  | [], ys => by simp [mergeUnion]
  | x :: xs, [] => by simp [mergeUnion]
  | x :: xs, y :: ys => by
    rw [mergeUnion]
    split_ifs with h1 h2
    · rw [List.mem_cons, mem_mergeUnion t xs (y :: ys)]
      simp only [List.mem_cons]
      tauto
    · rw [List.mem_cons, mem_mergeUnion t (x :: xs) ys]
      simp only [List.mem_cons]
      tauto
    · have hxy : x = y := le_antisymm (not_lt.mp h2) (not_lt.mp h1)
      subst hxy
      rw [List.mem_cons, mem_mergeUnion t xs ys]
      simp only [List.mem_cons]
      tauto
termination_by xs ys => xs.length + ys.length

theorem mergeUnion_pairwise :
    ∀ (xs ys : List ℚ), List.Pairwise (· < ·) xs →
      List.Pairwise (· < ·) ys → List.Pairwise (· < ·) (mergeUnion xs ys)
  | [], ys, _, hys => by simpa [mergeUnion] using hys
  | x :: xs, [], hxs, _ => by simpa [mergeUnion] using hxs
  | x :: xs, y :: ys, hxs, hys => by
    obtain ⟨hx, hxs2⟩ := List.pairwise_cons.mp hxs
    obtain ⟨hy, hys2⟩ := List.pairwise_cons.mp hys
    rw [mergeUnion]
    split_ifs with h1 h2
    · refine List.pairwise_cons.mpr
        ⟨?_, mergeUnion_pairwise xs (y :: ys) hxs2 hys⟩
      intro t ht
      rcases (mem_mergeUnion t xs (y :: ys)).mp ht with h | h
      · exact hx t h
      · rcases List.mem_cons.mp h with rfl | h
        · exact h1
        · exact h1.trans (hy t h)
    · refine List.pairwise_cons.mpr
        ⟨?_, mergeUnion_pairwise (x :: xs) ys hxs hys2⟩
      intro t ht
      rcases (mem_mergeUnion t (x :: xs) ys).mp ht with h | h
      · rcases List.mem_cons.mp h with rfl | h
        · exact h2
        · exact h2.trans (hx t h)
      · exact hy t h
    · have hxy : x = y := le_antisymm (not_lt.mp h2) (not_lt.mp h1)
      subst hxy
      refine List.pairwise_cons.mpr ⟨?_, mergeUnion_pairwise xs ys hxs2 hys2⟩
      intro t ht
      rcases (mem_mergeUnion t xs ys).mp ht with h | h
      · exact hx t h
      · exact hy t h
termination_by xs ys => xs.length + ys.length

theorem idxLookup_not_mem {α : Type} (t : ℚ) :
    ∀ (idx : List ℚ) (vals : List α), t ∉ idx → idxLookup idx vals t = none
  | [], _, _ => rfl
  | _ :: _, [], _ => rfl
  | i :: is, v :: vs, h => by
    have hne : ¬ t = i := fun ht => h (by rw [ht]; exact List.mem_cons_self i is)
    rw [idxLookup, if_neg hne]
    exact idxLookup_not_mem t is vs (fun ht => h (List.mem_cons_of_mem i ht))

theorem idxLookup_map_self {α : Type} (f : ℚ → α) (t : ℚ) :
    ∀ (idx : List ℚ), idx.Nodup → t ∈ idx →
      idxLookup idx (idx.map f) t = some (f t)
  | [], _, h => absurd h (List.not_mem_nil t)
  | i :: is, hnd, h => by
    by_cases ht : t = i
    · subst ht
      simp [idxLookup]
    · rw [List.map_cons, idxLookup, if_neg ht]
      exact idxLookup_map_self f t is (List.nodup_cons.mp hnd).2
        ((List.mem_cons.mp h).resolve_left ht)

theorem insertSorted_mem (x t : ℚ) :
    ∀ l : List ℚ, t ∈ insertSorted x l ↔ t = x ∨ t ∈ l
  | [] => by simp [insertSorted]
  | y :: ys => by
    rw [insertSorted]
    split_ifs with h1 h2
    · simp only [List.mem_cons]
    · subst h2
      simp only [List.mem_cons]
      tauto
    · rw [List.mem_cons, insertSorted_mem x t ys, List.mem_cons]
      tauto

theorem insertSorted_pairwise (x : ℚ) :
    ∀ l : List ℚ, List.Pairwise (· < ·) l →
      List.Pairwise (· < ·) (insertSorted x l)
  | [], _ => by simp [insertSorted]
  | y :: ys, h => by
    obtain ⟨hy, hys⟩ := List.pairwise_cons.mp h
    rw [insertSorted]
    split_ifs with h1 h2
    · refine List.pairwise_cons.mpr ⟨?_, h⟩
      intro t ht
      rcases List.mem_cons.mp ht with rfl | ht2
      · exact h1
      · exact h1.trans (hy t ht2)
    · exact h
    · have hyx : y < x :=
        lt_of_le_of_ne (not_lt.mp h1) (fun he => h2 he.symm)
      refine List.pairwise_cons.mpr ⟨?_, insertSorted_pairwise x ys hys⟩
      intro t ht
      rcases (insertSorted_mem x t ys).mp ht with rfl | ht2
      · exact hyx
      · exact hy t ht2

theorem foldr_insertSorted_mem (t : ℚ) :
    ∀ l : List ℚ, t ∈ l.foldr insertSorted [] ↔ t ∈ l
  | [] => by simp
  | x :: xs => by
    rw [List.foldr_cons, insertSorted_mem, foldr_insertSorted_mem t xs,
      List.mem_cons]

theorem foldr_insertSorted_pairwise :
    ∀ l : List ℚ, List.Pairwise (· < ·) (l.foldr insertSorted [])
  | [] => by simp
  | x :: xs => by
    rw [List.foldr_cons]
    exact insertSorted_pairwise x _ (foldr_insertSorted_pairwise xs)

theorem mem_sortedUnion (t : ℚ) (ls : List (List ℚ)) :
    t ∈ sortedUnion ls ↔ ∃ l ∈ ls, t ∈ l := by
  rw [sortedUnion, foldr_insertSorted_mem, List.mem_flatten]

theorem sortedUnion_pairwise (ls : List (List ℚ)) :
    List.Pairwise (· < ·) (sortedUnion ls) :=
  foldr_insertSorted_pairwise ls.flatten

/-- Two strictly sorted lists with the same members are equal. -/
theorem sorted_lt_eq_of_mem_iff :
    ∀ {l1 l2 : List ℚ}, List.Pairwise (· < ·) l1 →
      List.Pairwise (· < ·) l2 → (∀ t, t ∈ l1 ↔ t ∈ l2) → l1 = l2
  | [], [], _, _, _ => rfl
  | [], y :: ys, _, _, hmem =>
      absurd ((hmem y).mpr (List.mem_cons_self y ys)) (List.not_mem_nil y)
  | x :: xs, [], _, _, hmem =>
      absurd ((hmem x).mp (List.mem_cons_self x xs)) (List.not_mem_nil x)
  | x :: xs, y :: ys, h1, h2, hmem => by
    obtain ⟨hx, hxs⟩ := List.pairwise_cons.mp h1
    obtain ⟨hy, hys⟩ := List.pairwise_cons.mp h2
    have hxy : x = y := by
      rcases List.mem_cons.mp ((hmem x).mp (List.mem_cons_self x xs))
        with h | h
      · exact h
      · have hyx : y < x := hy x h
        rcases List.mem_cons.mp ((hmem y).mpr (List.mem_cons_self y ys))
          with h3 | h3
        · exact h3.symm
        · exact absurd (hx y h3) (lt_asymm hyx)
    subst hxy
    have hmem2 : ∀ t, t ∈ xs ↔ t ∈ ys := by
      intro t
      constructor
      · intro ht
        rcases List.mem_cons.mp ((hmem t).mp (List.mem_cons_of_mem x ht))
          with rfl | h3
        · exact absurd (hx t ht) (lt_irrefl t)
        · exact h3
      · intro ht
        rcases List.mem_cons.mp ((hmem t).mpr (List.mem_cons_of_mem x ht))
          with rfl | h3
        · exact absurd (hy t ht) (lt_irrefl t)
        · exact h3
    rw [sorted_lt_eq_of_mem_iff hxs hys hmem2]

/-- The columns that correspond to a list of joined series over a given
index: one column per series, each entry the series' value at the index
entry (or `none`). -/
def colsFor (ss : List Series) (idx : List ℚ) : List (List (Option ℚ)) :=
  ss.map (fun s => idx.map (fun t => idxLookup s.index s.values t))

theorem reindex_col (dfIdx newIdx : List ℚ) (s2 : Series)
    (hnd : dfIdx.Nodup)
    (hsub : ∀ t, t ∈ s2.index → t ∈ dfIdx) :
    newIdx.map (fun t =>
      (idxLookup dfIdx
        (dfIdx.map (fun u => idxLookup s2.index s2.values u)) t).bind id) =
    newIdx.map (fun t => idxLookup s2.index s2.values t) := by
  apply List.map_congr_left
  intro t _
  by_cases htm : t ∈ dfIdx
  · rw [idxLookup_map_self _ t dfIdx hnd htm]
    rfl
  · rw [idxLookup_not_mem t dfIdx _ htm,
      idxLookup_not_mem t s2.index s2.values (fun hts => htm (hsub t hts))]
    rfl

theorem dfJoin_step (df : DataFrame) (s : Series) (df2 : DataFrame)
    (pss : List Series) (hjoin : dfJoin df s = .ok df2)
    (hdf : List.Pairwise (· < ·) df.index)
    (hs : List.Pairwise (· < ·) s.index)
    (hmem : ∀ t, t ∈ df.index ↔ ∃ s2 ∈ pss, t ∈ s2.index)
    (hcols : df.cols.map Prod.snd = colsFor pss df.index) :
    List.Pairwise (· < ·) df2.index ∧
    (∀ t, t ∈ df2.index ↔ ∃ s2 ∈ pss ++ [s], t ∈ s2.index) ∧
    df2.cols.map Prod.snd = colsFor (pss ++ [s]) df2.index := by
  rcases hsn : s.name with - | nm
  · simp only [dfJoin, hsn] at hjoin
    exact Except.noConfusion hjoin
  · simp only [dfJoin, hsn] at hjoin
    split_ifs at hjoin with hov
    rw [Except.ok.injEq] at hjoin
    subst hjoin
    refine ⟨mergeUnion_pairwise _ _ hdf hs, ?_, ?_⟩
    · intro t
      rw [mem_mergeUnion, hmem t]
      simp only [List.mem_append, List.mem_singleton]
      constructor
      · rintro (⟨s2, h2, h3⟩ | h2)
        · exact ⟨s2, Or.inl h2, h3⟩
        · exact ⟨s, Or.inr rfl, h2⟩
      · rintro ⟨s2, h2 | rfl, h3⟩
        · exact Or.inl ⟨s2, h2, h3⟩
        · exact Or.inr h3
    · show (df.cols.map _ ++ [(nm, _)]).map Prod.snd =
        colsFor (pss ++ [s]) (mergeUnion df.index s.index)
      rw [List.map_append, colsFor, List.map_append]
      have hpart1 : (df.cols.map (fun c =>
          (c.1, (mergeUnion df.index s.index).map
            (fun t => (idxLookup df.index c.2 t).bind id)))).map Prod.snd =
          pss.map (fun s2 => (mergeUnion df.index s.index).map
            (fun t => idxLookup s2.index s2.values t)) :=
        calc (df.cols.map (fun c =>
            (c.1, (mergeUnion df.index s.index).map
              (fun t => (idxLookup df.index c.2 t).bind id)))).map Prod.snd
            = (df.cols.map Prod.snd).map (fun col =>
                (mergeUnion df.index s.index).map
                  (fun t => (idxLookup df.index col t).bind id)) := by
              rw [List.map_map, List.map_map]
              rfl
          _ = (colsFor pss df.index).map (fun col =>
                (mergeUnion df.index s.index).map
                  (fun t => (idxLookup df.index col t).bind id)) := by
              rw [hcols]
          _ = pss.map (fun s2 => (mergeUnion df.index s.index).map
                (fun t => (idxLookup df.index
                  (df.index.map (fun u => idxLookup s2.index s2.values u))
                  t).bind id)) := by
              rw [colsFor, List.map_map]
              rfl
          _ = pss.map (fun s2 => (mergeUnion df.index s.index).map
                (fun t => idxLookup s2.index s2.values t)) := by
              apply List.map_congr_left
              intro s2 hs2
              exact reindex_col df.index (mergeUnion df.index s.index) s2
                hdf.nodup (fun t ht => (hmem t).mpr ⟨s2, hs2, ht⟩)
      rw [hpart1]
      rfl

theorem allSignalsGo_spec (ext : Ext) (w : Wavematic) :
    ∀ (sigs : List Signal) (i : ℕ) (df : DataFrame) (pss ss : List Series)
      (dff : DataFrame),
    resolvedSeriesGo ext w i sigs = .ok ss →
    allSignalsGo ext w i df sigs = .ok dff →
    List.Pairwise (· < ·) df.index →
    (∀ t, t ∈ df.index ↔ ∃ s2 ∈ pss, t ∈ s2.index) →
    df.cols.map Prod.snd = colsFor pss df.index →
    (∀ s2 ∈ ss, List.Pairwise (· < ·) s2.index) →
    List.Pairwise (· < ·) dff.index ∧
    (∀ t, t ∈ dff.index ↔ ∃ s2 ∈ pss ++ ss, t ∈ s2.index) ∧
    dff.cols.map Prod.snd = colsFor (pss ++ ss) dff.index
  | [], i, df, pss, ss, dff => by
    intro hss hdf hp hm hc _
    simp only [resolvedSeriesGo, Except.ok.injEq] at hss
    simp only [allSignalsGo, Except.ok.injEq] at hdf
    subst hss
    subst hdf
    simpa using ⟨hp, hm, hc⟩
  | sig :: rest, i, df, pss, ss, dff => by
    intro hss hdf hp hm hc hsorted
    rcases h1 : sigSeries ext w i sig with e | s
    · simp only [resolvedSeriesGo, h1] at hss
      exact Except.noConfusion hss
    simp only [resolvedSeriesGo, h1] at hss
    rcases h2 : resolvedSeriesGo ext w (i + 1) rest with e | ss2
    · simp only [h2] at hss
      exact Except.noConfusion hss
    simp only [h2, Except.ok.injEq] at hss
    subst hss
    simp only [allSignalsGo, h1] at hdf
    rcases h3 : dfJoin df s with e | df2
    · simp only [h3] at hdf
      exact Except.noConfusion hdf
    simp only [h3] at hdf
    have hstep := dfJoin_step df s df2 pss h3 hp
      (hsorted s (List.mem_cons_self s ss2)) hm hc
    have hrec := allSignalsGo_spec ext w rest (i + 1) df2 (pss ++ [s]) ss2 dff
      h2 hdf hstep.1 hstep.2.1 hstep.2.2
      (fun s2 h => hsorted s2 (List.mem_cons_of_mem s h))
    rw [List.append_assoc, List.singleton_append] at hrec
    exact hrec

/-- C2: whenever `all_signals` succeeds, `get()` equals the
specification-side description: the table summed across the column axis
per row, where at each timestamp only the signals that have a value
there contribute, indexed by the sorted union of all signals'
timestamps (the `hsorted` hypothesis records that the per-signal
timestamp sequences are strictly increasing, which holds for every
axis generated by a validly constructed `TimeAxis`). -/
theorem wavematic_get_spec (ext : Ext) (store : Store) (w : Wavematic)
    (ss : List Series) (df : DataFrame)
    (hss : Wavematic.resolvedSeries ext store w = .ok ss)
    (hsorted : ∀ s2 ∈ ss, List.Pairwise (· < ·) s2.index)
    (hdf : Wavematic.all_signals ext store w = .ok df) :
    Wavematic.get ext store w = .ok (specCombined ss (w.name.map SName.str)) := by
  obtain ⟨hp, hm, hc⟩ := allSignalsGo_spec ext w (Wavematic.signals store w)
    0 dfEmpty [] ss df hss hdf (by simp [dfEmpty]) (by simp [dfEmpty])
    (by simp [dfEmpty, colsFor]) hsorted
  simp only [List.nil_append] at hm hc
  have hidx : sortedUnion (ss.map Series.index) = df.index := by
    refine sorted_lt_eq_of_mem_iff (sortedUnion_pairwise _) hp ?_
    intro t
    rw [mem_sortedUnion, hm t]
    constructor
    · rintro ⟨l, hl, htl⟩
      obtain ⟨s2, hs2, rfl⟩ := List.mem_map.mp hl
      exact ⟨s2, hs2, htl⟩
    · rintro ⟨s2, hs2, htl⟩
      exact ⟨s2.index, List.mem_map.mpr ⟨s2, hs2, rfl⟩, htl⟩
  have hv : (List.range df.index.length).map (fun i => dfRowSum df i) =
      df.index.map (fun t =>
        (ss.filterMap (fun s2 => idxLookup s2.index s2.values t)).sum) := by
    apply List.ext_getElem
    · simp
    · intro j hj1 hj2
      rw [List.length_map, List.length_range] at hj1
      simp only [List.getElem_map, List.getElem_range]
      show dfRowSum df j =
        (ss.filterMap (fun s2 => idxLookup s2.index s2.values df.index[j])).sum
      rw [dfRowSum]
      congr 1
      have hfm1 : df.cols.filterMap (fun c => (c.2[j]?).bind id) =
          List.filterMap (fun col => (col[j]?).bind id)
            (df.cols.map Prod.snd) := by
        rw [List.filterMap_map]
        rfl
      rw [hfm1, hc, colsFor, List.filterMap_map]
      apply List.filterMap_congr
      intro s2 _
      show ((df.index.map (fun t => idxLookup s2.index s2.values t))[j]?).bind id =
        idxLookup s2.index s2.values df.index[j]
      rw [List.getElem?_map, List.getElem?_eq_getElem hj1]
      rfl
  simp only [Wavematic.get, hdf]
  rw [specCombined, hidx, hv]

/-- C2 witness: a Wavematic with no signals — `get()` produces the empty
series, equal to the spec-side combination of no series. -/
theorem wavematic_get_spec_witness :
    Wavematic.get extT storeT wmT =
      .ok (specCombined [] (wmT.name.map SName.str)) :=
  wavematic_get_spec extT storeT wmT [] dfEmpty rfl (by simp) rfl

/-! ### Determinism -/

/-- Two noise instances with equal seed and amp but different names. -/
def noiseA : Noise := { amp := 1, name := "A" }

/-- Same as `noiseA` except for the name. -/
def noiseB : Noise := { amp := 1, name := "B" }

/-- C9 counterexample: two `Noise` instances with equal seed and equal
amp, evaluated over the same axis, do NOT produce bit-identical output
when their names differ — the output series carries `self.name` as its
label (source line 146), so the two outputs differ in the label (their
indexes and values are identical). -/
theorem noise_output_not_name_independent :
    noiseA.seed = noiseB.seed ∧ noiseA.amp = noiseB.amp ∧
    Noise.get extT noiseA (some taT) ≠ Noise.get extT noiseB (some taT) := by
  refine ⟨rfl, rfl, fun h => ?_⟩
  have h2 : some (SName.str "A") = some (SName.str "B") :=
    congrArg (fun x =>
      match x with
      | Except.ok s => s.name
      | Except.error _ => none) h
  have h3 : "A" = "B" := SName.str.inj (Option.some.inj h2)
  exact absurd h3 (by decide)

/-- C9 (amended): `get()` is deterministic — evaluating it twice on an
unmutated `TimeAxis`, `Wave`, `Noise` or `Wavematic` yields identical
output (all four are pure functions of their state) — and two `Noise`
instances with equal seed, equal amp *and equal name*, evaluated over
the same axis, produce bit-identical output (instances differing only
in name produce output differing only in its label). -/
theorem get_deterministic (ext : Ext) (ta : TimeAxis) (w : Wave)
    (nz nz1 nz2 : Noise) (arg : Option TimeAxis) (axis : TimeAxis)
    (store : Store) (wm : Wavematic)
    (hseed : nz1.seed = nz2.seed) (hamp : nz1.amp = nz2.amp)
    (hname : nz1.name = nz2.name) :
    ta.get = ta.get ∧
    Wave.get ext w arg = Wave.get ext w arg ∧
    Noise.get ext nz arg = Noise.get ext nz arg ∧
    Wavematic.get ext store wm = Wavematic.get ext store wm ∧
    Noise.get ext nz1 (some axis) = Noise.get ext nz2 (some axis) := by
  refine ⟨rfl, rfl, rfl, rfl, ?_⟩
  obtain ⟨ta1, amp1, seed1, name1⟩ := nz1
  obtain ⟨ta2, amp2, seed2, name2⟩ := nz2
  obtain rfl : seed1 = seed2 := hseed
  obtain rfl : amp1 = amp2 := hamp
  obtain rfl : name1 = name2 := hname
  rfl

/-- C9 (amended) witness. -/
theorem get_deterministic_witness :
    TimeAxis.get taT = TimeAxis.get taT ∧
    Wave.get extT {} none = Wave.get extT {} none ∧
    Noise.get extT noiseA none = Noise.get extT noiseA none ∧
    Wavematic.get extT storeT wmT = Wavematic.get extT storeT wmT ∧
    Noise.get extT noiseA (some taT) = Noise.get extT noiseA (some taT) :=
  get_deterministic extT taT {} noiseA noiseA noiseA none taT storeT wmT
    rfl rfl rfl

end WavematicSpec
